import Mathlib

/-!
Verification of the admission-control layer of DB-GENIE:
the per-user quota guard (`services/rate_limiting/user_quota.py`) and the
multi-key LLM rate limiter (`services/rate_limiting/llm_rate_limiter.py`).

The Python code is shallowly embedded: Redis is modelled as a key/value
store of counters with TTLs, carrying a `present` flag (whether
`self.redis` is a client rather than `None`) and a `connected` flag
(whether store operations succeed or raise a connectivity error, which the
embedding surfaces through `Except`).  The in-process rate limiter is
modelled as explicit state passing: its semaphore value, round-robin
cursor, and per-key timestamp deques.  Wall-clock readings (`time.time()`)
and the outcome of the semaphore wait are inputs to each `acquire` call.
-/

namespace DBGenie

/-! ## Per-user quota service (`user_quota.py`) -/

/-- Configuration for per-user quota (`UserQuotaConfig`). -/
structure UserQuotaConfig where
  enabled : Bool
  per_minute : Nat
  per_hour : Nat
  per_day : Nat
deriving DecidableEq, Repr

/-- Snapshot of one timeframe: the `{"used", "limit", "resets_in"}` dict. -/
structure TimeframeUsage where
  used : Nat
  limit : Nat
  resets_in : Int
deriving DecidableEq, Repr

/-- Snapshot of all three timeframes (`QuotaUsage`). -/
structure QuotaUsage where
  minute : TimeframeUsage
  hour : TimeframeUsage
  day : TimeframeUsage
deriving DecidableEq, Repr

/-- One stored counter: its value and its remaining TTL in seconds
(Redis reports `-1` for a key without expiry). -/
structure StoreEntry where
  count : Nat
  ttl : Int
deriving DecidableEq, Repr

/-- The shared Redis store.  `present` models `self.redis` being a client
rather than `None`; `connected` models whether operations succeed or raise
a connectivity error. -/
structure RedisStore where
  present : Bool
  connected : Bool
  data : String → Option StoreEntry

/-- Redis `GET`, returning the counter value when the key exists.  Raises
(`Except.error`) on a connectivity failure. -/
def RedisStore.get (st : RedisStore) (k : String) : Except Unit (Option Nat) :=
  if st.connected then Except.ok ((st.data k).map StoreEntry.count) else Except.error ()

/-- Redis `TTL`, returning `-2` for a missing key.  Raises on a
connectivity failure. -/
def RedisStore.ttl (st : RedisStore) (k : String) : Except Unit Int :=
  if st.connected then
    Except.ok (match st.data k with
      | none => -2
      | some e => e.ttl)
  else Except.error ()

/-- One `INCR key` followed by `EXPIRE key ttl` (a missing key is created
at count 1, as Redis does). -/
def RedisStore.incrExpire (st : RedisStore) (k : String) (ttlVal : Int) : RedisStore :=
  let newCount := (match st.data k with | none => 0 | some e => e.count) + 1
  { st with data := fun k2 =>
      if k2 = k then some { count := newCount, ttl := ttlVal } else st.data k2 }

/-- The pipeline `pipe.incr(key); pipe.expire(key, ttl)` for each listed
key, executed as one batch by `pipe.execute()`.  Raises on a connectivity
failure. -/
def RedisStore.execPipeline (st : RedisStore) (ops : List (String × Int)) :
    Except Unit RedisStore :=
  if st.connected then Except.ok (ops.foldl (fun s p => s.incrExpire p.1 p.2) st)
  else Except.error ()

/-- Redis key for a user's quota counter (`_get_key`). -/
def quotaKey (user_id timeframe : String) : String :=
  "quota:" ++ user_id ++ ":" ++ timeframe

/-- The `self.limits` dict, in insertion order: timeframe name, limit,
nominal TTL window. -/
def UserQuotaConfig.limits (cfg : UserQuotaConfig) : List (String × Nat × Int) :=
  [("minute", cfg.per_minute, 60), ("hour", cfg.per_hour, 3600), ("day", cfg.per_day, 86400)]

/-- The zero-usage snapshot returned on the disabled and store-absent
paths. -/
def zeroUsage (cfg : UserQuotaConfig) : QuotaUsage :=
  { minute := { used := 0, limit := cfg.per_minute, resets_in := 0 },
    hour := { used := 0, limit := cfg.per_hour, resets_in := 0 },
    day := { used := 0, limit := cfg.per_day, resets_in := 0 } }

/-- One iteration of the read loop: `GET` the counter, `TTL` the key,
defaulting an absent count to 0 and a negative TTL to the nominal
window. -/
def readTimeframe (st : RedisStore) (user_id tf : String) (limit : Nat)
    (ttlNominal : Int) : Except Unit TimeframeUsage := do
  let key := quotaKey user_id tf
  let current ← st.get key
  let current_count := current.getD 0
  let remaining ← st.ttl key
  let remaining_ttl := if remaining < 0 then ttlNominal else remaining
  Except.ok { used := current_count, limit := limit, resets_in := remaining_ttl }

/-- The `for timeframe, (limit, ttl) in self.limits.items()` read loop:
collects the per-timeframe snapshots and whether any timeframe is at or
over its limit (`exceeded_timeframe`). -/
def readTimeframes (st : RedisStore) (user_id : String) :
    List (String × Nat × Int) → Except Unit (List (String × TimeframeUsage) × Bool)
  | [] => Except.ok ([], false)
  | (tf, limit, ttlNominal) :: rest => do
    let u ← readTimeframe st user_id tf limit ttlNominal
    let (us, ex) ← readTimeframes st user_id rest
    Except.ok ((tf, u) :: us, ex || decide (limit ≤ u.used))

/-- Lookup in the collected `usage_data` dict, with the `.get(tf, {})`
default. -/
def lookupTF (l : List (String × TimeframeUsage)) (tf : String) : TimeframeUsage :=
  (l.lookup tf).getD { used := 0, limit := 0, resets_in := 0 }

/-- `UserQuotaService.check_and_increment`: returns `(allowed, usage)` and
the resulting store.  A store operation that raises propagates as
`Except.error` (the source has no exception handler around the Redis
calls). -/
def check_and_increment (cfg : UserQuotaConfig) (st : RedisStore) (user_id : String) :
    Except Unit (Bool × QuotaUsage × RedisStore) :=
  if !cfg.enabled then Except.ok (true, zeroUsage cfg, st)
  else if !st.present then Except.ok (true, zeroUsage cfg, st)
  else do
    let (usage_data, exceeded) ← readTimeframes st user_id cfg.limits
    let usage : QuotaUsage :=
      { minute := lookupTF usage_data "minute",
        hour := lookupTF usage_data "hour",
        day := lookupTF usage_data "day" }
    if exceeded then Except.ok (false, usage, st)
    else do
      let st2 ← st.execPipeline (cfg.limits.map (fun l => (quotaKey user_id l.1, l.2.2)))
      Except.ok (true,
        { minute := { usage.minute with used := usage.minute.used + 1 },
          hour := { usage.hour with used := usage.hour.used + 1 },
          day := { usage.day with used := usage.day.used + 1 } }, st2)

/-- `UserQuotaService.get_usage`: the same read path with no increment.
The store is threaded through to make the frame property statable. -/
def get_usage (cfg : UserQuotaConfig) (st : RedisStore) (user_id : String) :
    Except Unit (QuotaUsage × RedisStore) :=
  if !cfg.enabled || !st.present then Except.ok (zeroUsage cfg, st)
  else do
    let (usage_data, _) ← readTimeframes st user_id cfg.limits
    Except.ok
      ({ minute := lookupTF usage_data "minute",
         hour := lookupTF usage_data "hour",
         day := lookupTF usage_data "day" }, st)

/-- Current count of a user's counter as stored (absent key reads as 0). -/
def usedOf (st : RedisStore) (user_id tf : String) : Nat :=
  match st.data (quotaKey user_id tf) with
  | none => 0
  | some e => e.count

/-- Reset time reported for a user's counter: its TTL, defaulting to the
nominal window when the key is absent or has no expiry. -/
def resetsOf (st : RedisStore) (user_id tf : String) (nominal : Int) : Int :=
  match st.data (quotaKey user_id tf) with
  | none => nominal
  | some e => if e.ttl < 0 then nominal else e.ttl

/-- The snapshot the read loop produces from the current store contents. -/
def readUsage (cfg : UserQuotaConfig) (st : RedisStore) (user_id : String) : QuotaUsage :=
  { minute := { used := usedOf st user_id "minute", limit := cfg.per_minute,
                resets_in := resetsOf st user_id "minute" 60 },
    hour := { used := usedOf st user_id "hour", limit := cfg.per_hour,
              resets_in := resetsOf st user_id "hour" 3600 },
    day := { used := usedOf st user_id "day", limit := cfg.per_day,
             resets_in := resetsOf st user_id "day" 86400 } }

/-! ## Multi-key LLM rate limiter (`llm_rate_limiter.py`) -/

/-- Configuration for the rate limiter (`RateLimiterConfig`). -/
structure RateLimiterConfig where
  enabled : Bool
  api_keys : List String
  max_rpm_per_key : Nat
  max_concurrent : Nat
  queue_timeout : Nat
deriving DecidableEq, Repr

/-- Mutable state of `MultiKeyRateLimiter`: the semaphore's available
slots, the round-robin cursor, and the per-key timestamp deques.
Timestamps are integer clock readings (seconds). -/
structure LimiterState where
  semaphore : Nat
  current_key_index : Nat
  key_timestamps : String → List Int

/-- State right after `__init__`. -/
def initState (cfg : RateLimiterConfig) : LimiterState :=
  { semaphore := cfg.max_concurrent, current_key_index := 0,
    key_timestamps := fun _ => [] }

/-- The `while timestamps and now - timestamps[0] > 60: timestamps.popleft()`
cleanup: drop entries older than 60 seconds from the front. -/
def trimOld (now : Int) (ts : List Int) : List Int :=
  ts.dropWhile (fun t => decide (now - t > 60))

/-- Per-call inputs to `acquire`: the `time.time()` reading at entry,
whether the `asyncio.wait_for` on the semaphore timed out, and how much
extra wall time elapses beyond the computed sleep on the fallback path
(the fresh `time.time()` reading there is
`now + max(wait_time, 0) + eps`). -/
structure AcquireEnv where
  now : Int
  timedOut : Bool
  eps : Int
deriving DecidableEq, Repr

/-- The `for _ in range(len(self.config.api_keys))` round-robin scan:
advance the cursor, trim the candidate's window, and select it if it has
capacity, recording the grant timestamp.  Returns the selected key (if
any), the final cursor, and the windows after the in-place trims. -/
def scanKeys (cfg : RateLimiterConfig) (now : Int) :
    Nat → Nat → (String → List Int) → Option String × Nat × (String → List Int)
  | 0, idx, w => (none, idx, w)
  | n + 1, idx, w =>
    let key := cfg.api_keys.getD idx ""
    let idx2 := (idx + 1) % cfg.api_keys.length
    let ts := trimOld now (w key)
    if ts.length < cfg.max_rpm_per_key then
      (some key, idx2, fun k => if k = key then ts ++ [now] else w k)
    else
      scanKeys cfg now n idx2 (fun k => if k = key then ts else w k)

/-- Comparison used by `min(..., key=...)`, with `none` standing for
`float('inf')` (an empty deque). -/
def oldestLt : Option Int → Option Int → Bool
  | some a, some b => decide (a < b)
  | some _, none => true
  | none, _ => false

/-- The `min(self.key_timestamps.keys(), key=lambda k: ...)` selection of
the key whose oldest recorded timestamp is smallest; Python's `min`
returns the first key attaining the minimum. -/
def oldestKey (keys : List String) (w : String → List Int) : String :=
  match keys with
  | [] => ""
  | k :: ks => ks.foldl (fun best k2 =>
      if oldestLt ((w k2).head?) ((w best).head?) then k2 else best) k

/-- The all-keys-saturated fallback: pick the key whose oldest call ages
out soonest, sleep until it would leave the 60-second window, then append
a fresh `time.time()` reading to that key's deque (without re-trimming it)
and grant. -/
def fallbackGrant (cfg : RateLimiterConfig) (env : AcquireEnv) (idx : Nat)
    (w : String → List Int) (gate : Nat) : (Bool × Option String) × LimiterState :=
  let okey := oldestKey cfg.api_keys w
  let ots := w okey
  let now2 :=
    match ots.head? with
    | some t0 => env.now + max (60 - (env.now - t0)) 0 + env.eps
    | none => env.now + env.eps
  ((true, some okey),
   { semaphore := gate, current_key_index := idx,
     key_timestamps := fun k => if k = okey then ots ++ [now2] else w k })

/-- `MultiKeyRateLimiter.acquire`: returns `(success, api_key)` and the
resulting limiter state. -/
def acquire (cfg : RateLimiterConfig) (env : AcquireEnv) (s : LimiterState) :
    (Bool × Option String) × LimiterState :=
  if !cfg.enabled then
    ((true, cfg.api_keys.head?), s)
  else if cfg.api_keys.isEmpty then
    ((false, none), s)
  else if env.timedOut then
    ((false, none), s)
  else
    let gate := s.semaphore - 1
    match scanKeys cfg env.now cfg.api_keys.length s.current_key_index s.key_timestamps with
    | (some key, idx2, w2) =>
      ((true, some key),
       { semaphore := gate, current_key_index := idx2, key_timestamps := w2 })
    | (none, idx2, w2) => fallbackGrant cfg env idx2 w2 gate

/-- `MultiKeyRateLimiter.release`: return the semaphore slot when the
limiter is enabled. -/
def release (cfg : RateLimiterConfig) (s : LimiterState) : LimiterState :=
  if cfg.enabled then { s with semaphore := s.semaphore + 1 } else s

/-- The masked form of a credential used as the stats dict key:
`f"{key[:8]}...{key[-4:]}"` with Python slice semantics. -/
def maskKey (key : String) : String :=
  String.mk (key.data.take 8) ++ "..." ++ String.mk (key.data.drop (key.data.length - 4))

/-- Count of timestamps within the trailing 60 seconds
(`sum(1 for t in timestamps if now - t <= 60)`). -/
def recentCount (now : Int) (ts : List Int) : Nat :=
  ts.countP (fun t => decide (now - t ≤ 60))

/-- `MultiKeyRateLimiter.get_stats`: one `(masked_key, rpm_used, rpm_limit)`
entry per configured key. -/
def get_stats (cfg : RateLimiterConfig) (now : Int) (w : String → List Int) :
    List (String × Nat × Nat) :=
  cfg.api_keys.map (fun key => (maskKey key, recentCount now (w key), cfg.max_rpm_per_key))

/-- A sequence of `acquire` calls, one at a time (the limiter's lock
serialises the selection section; the fallback sleeps while holding it). -/
def runAcquires (cfg : RateLimiterConfig) : List AcquireEnv → LimiterState → LimiterState
  | [], s => s
  | env :: rest, s => runAcquires cfg rest (acquire cfg env s).2

/-- A sequence of `acquire` calls collecting each call's result. -/
def acquireSeq (cfg : RateLimiterConfig) :
    List AcquireEnv → LimiterState → List (Bool × Option String) × LimiterState
  | [], s => ([], s)
  | env :: rest, s =>
    let r := acquire cfg env s
    let rec2 := acquireSeq cfg rest r.2
    (r.1 :: rec2.1, rec2.2)

/-- An interleaved sequence of `acquire` and `release` calls. -/
inductive LimiterOp where
  | acq (env : AcquireEnv)
  | rel
deriving DecidableEq, Repr

/-- Run a mixed sequence of limiter operations. -/
def runOps (cfg : RateLimiterConfig) : List LimiterOp → LimiterState → LimiterState
  | [], s => s
  | LimiterOp.acq env :: rest, s => runOps cfg rest (acquire cfg env s).2
  | LimiterOp.rel :: rest, s => runOps cfg rest (release cfg s)

/-- Well-formedness of a call trace: at each call, the clock reading is no
earlier than every timestamp already recorded (the wall clock is
monotone), and on the fallback path strictly more wall time elapses than
the computed sleep (`eps > 0` — `time.time()` is read afresh after the
sleep). -/
def validTrace (cfg : RateLimiterConfig) : LimiterState → List AcquireEnv → Bool
  | _, [] => true
  | s, env :: rest =>
    (cfg.api_keys.all fun k => (s.key_timestamps k).all fun t => decide (t ≤ env.now)) &&
      decide (0 < env.eps) && validTrace cfg (acquire cfg env s).2 rest

/-- Light load along a call trace: no call times out and, at each call,
every credential's trimmed window is strictly below the RPM ceiling. -/
def lightLoad (cfg : RateLimiterConfig) : LimiterState → List AcquireEnv → Bool
  | _, [] => true
  | s, env :: rest =>
    !env.timedOut &&
      (cfg.api_keys.all fun k =>
        decide ((trimOld env.now (s.key_timestamps k)).length < cfg.max_rpm_per_key)) &&
      lightLoad cfg (acquire cfg env s).2 rest

/-- Concrete limiter configurations used to exercise the theorems on
closed inputs. -/
def cfgTwoKeys : RateLimiterConfig :=
  { enabled := true, api_keys := ["alpha", "beta"], max_rpm_per_key := 2,
    max_concurrent := 10, queue_timeout := 60 }

/-- A single-credential configuration whose RPM ceiling is zero. -/
def cfgZeroRpm : RateLimiterConfig :=
  { enabled := true, api_keys := ["k1"], max_rpm_per_key := 0,
    max_concurrent := 5, queue_timeout := 60 }

/-- A single-credential configuration with a ceiling of one call per
minute. -/
def cfgOneRpm : RateLimiterConfig :=
  { enabled := true, api_keys := ["k1"], max_rpm_per_key := 1,
    max_concurrent := 5, queue_timeout := 60 }

/-- A single-credential enabled configuration. -/
def cfgOneKey : RateLimiterConfig :=
  { enabled := true, api_keys := ["alpha"], max_rpm_per_key := 2,
    max_concurrent := 5, queue_timeout := 60 }

/-- A configuration holding one three-character credential. -/
def cfgShortKey : RateLimiterConfig :=
  { enabled := true, api_keys := ["abc"], max_rpm_per_key := 25,
    max_concurrent := 5, queue_timeout := 60 }

/-- A configuration holding one long, dot-free credential. -/
def cfgLongKey : RateLimiterConfig :=
  { enabled := true, api_keys := ["sk12345678901234"], max_rpm_per_key := 25,
    max_concurrent := 5, queue_timeout := 60 }

/-- A single-credential disabled configuration. -/
def cfgOneKeyOff : RateLimiterConfig :=
  { enabled := false, api_keys := ["alpha"], max_rpm_per_key := 2,
    max_concurrent := 5, queue_timeout := 60 }

/-- The windows invariant: the cursor is in range, and every configured
key's deque is sorted with at most `max_rpm_per_key` entries inside the
trailing 60-second window of any instant `T` at or after all of its
entries. -/
def WindowInv (cfg : RateLimiterConfig) (s : LimiterState) : Prop :=
  (cfg.api_keys.length = 0 ∨ s.current_key_index < cfg.api_keys.length) ∧
  ∀ k ∈ cfg.api_keys, (s.key_timestamps k).Sorted (· ≤ ·) ∧
    ∀ T : Int, (∀ t ∈ s.key_timestamps k, t ≤ T) →
      (trimOld T (s.key_timestamps k)).length ≤ cfg.max_rpm_per_key

/-- Post-increment usage snapshot: each timeframe's `used` bumped by one
(`usage.minute["used"] += 1` and friends). -/
def bumpUsage (u : QuotaUsage) : QuotaUsage :=
  { minute := { u.minute with used := u.minute.used + 1 },
    hour := { u.hour with used := u.hour.used + 1 },
    day := { u.day with used := u.day.used + 1 } }

/-- The store after the increment pipeline: all three of the user's
counters incremented, TTLs reset to the nominal windows. -/
def postStore (cfg : UserQuotaConfig) (st : RedisStore) (user_id : String) : RedisStore :=
  ((st.incrExpire (quotaKey user_id "minute") 60).incrExpire
      (quotaKey user_id "hour") 3600).incrExpire (quotaKey user_id "day") 86400

/-- Iterated `check_and_increment` calls for one user, threading the
store. -/
def runQuota (cfg : UserQuotaConfig) (user_id : String) :
    Nat → RedisStore → Except Unit RedisStore
  | 0, st => Except.ok st
  | n + 1, st =>
    match check_and_increment cfg st user_id with
    | Except.error e => Except.error e
    | Except.ok (_, _, st2) => runQuota cfg user_id n st2

end DBGenie

namespace DBGenie

/-! ## Quota-guard lemmas -/

theorem quotaKey_ne (u : String) {a b : String} (hab : a ≠ b) :
    quotaKey u a ≠ quotaKey u b := by
  intro h
  apply hab
  have h2 := congrArg String.data h
  simp only [quotaKey, String.data_append, List.append_assoc] at h2
  have h3 := List.append_cancel_left (List.append_cancel_left (List.append_cancel_left h2))
  cases a; cases b
  exact congrArg String.mk (by simpa using h3)

theorem readTimeframe_connected (st : RedisStore) (hc : st.connected = true)
    (user tf : String) (limit : Nat) (nominal : Int) :
    readTimeframe st user tf limit nominal =
      Except.ok { used := usedOf st user tf, limit := limit,
                  resets_in := resetsOf st user tf nominal } := by
  unfold readTimeframe RedisStore.get RedisStore.ttl usedOf resetsOf
  rw [hc]
  cases h : st.data (quotaKey user tf) with
  | none => simp only [h]; rfl
  | some e => simp only [h]; rfl

theorem readTimeframes_limits (cfg : UserQuotaConfig) (st : RedisStore)
    (user : String) (hc : st.connected = true) :
    readTimeframes st user cfg.limits =
      Except.ok ([("minute", (readUsage cfg st user).minute),
                  ("hour", (readUsage cfg st user).hour),
                  ("day", (readUsage cfg st user).day)],
        (decide (cfg.per_day ≤ usedOf st user "day") ||
            decide (cfg.per_hour ≤ usedOf st user "hour")) ||
          decide (cfg.per_minute ≤ usedOf st user "minute")) := by
  simp only [UserQuotaConfig.limits, readTimeframes, readTimeframe_connected st hc]
  rfl

theorem execPipeline_limits (cfg : UserQuotaConfig) (st : RedisStore)
    (user : String) (hc : st.connected = true) :
    st.execPipeline (cfg.limits.map (fun l => (quotaKey user l.1, l.2.2))) =
      Except.ok (postStore cfg st user) := by
  simp [RedisStore.execPipeline, hc, UserQuotaConfig.limits, postStore]

theorem check_and_increment_normal (cfg : UserQuotaConfig) (st : RedisStore)
    (user : String) (he : cfg.enabled = true) (hp : st.present = true)
    (hc : st.connected = true) :
    check_and_increment cfg st user =
      if (decide (cfg.per_day ≤ usedOf st user "day") ||
            decide (cfg.per_hour ≤ usedOf st user "hour")) ||
          decide (cfg.per_minute ≤ usedOf st user "minute") then
        Except.ok (false, readUsage cfg st user, st)
      else
        Except.ok (true, bumpUsage (readUsage cfg st user), postStore cfg st user) := by
  unfold check_and_increment
  rw [he, hp, readTimeframes_limits cfg st user hc]
  cases hex : ((decide (cfg.per_day ≤ usedOf st user "day") ||
      decide (cfg.per_hour ≤ usedOf st user "hour")) ||
      decide (cfg.per_minute ≤ usedOf st user "minute")) with
  | true => rfl
  | false =>
    show _ = Except.ok (true, bumpUsage (readUsage cfg st user), postStore cfg st user)
    rw [show cfg.limits.map (fun l => (quotaKey user l.1, l.2.2)) =
        [(quotaKey user "minute", 60), (quotaKey user "hour", 3600),
         (quotaKey user "day", 86400)] from rfl]
    rw [show (RedisStore.execPipeline st
        [(quotaKey user "minute", 60), (quotaKey user "hour", 3600),
         (quotaKey user "day", 86400)]) = Except.ok (postStore cfg st user) by
      simp [RedisStore.execPipeline, hc, postStore]]
    rfl

theorem postStore_present (cfg : UserQuotaConfig) (st : RedisStore) (u : String) :
    (postStore cfg st u).present = st.present := rfl

theorem postStore_connected (cfg : UserQuotaConfig) (st : RedisStore) (u : String) :
    (postStore cfg st u).connected = st.connected := rfl

theorem postStore_data_minute (cfg : UserQuotaConfig) (st : RedisStore) (u : String) :
    (postStore cfg st u).data (quotaKey u "minute") =
      some { count := usedOf st u "minute" + 1, ttl := 60 } := by
  have h1 : quotaKey u "minute" ≠ quotaKey u "hour" := quotaKey_ne u (by decide)
  have h2 : quotaKey u "minute" ≠ quotaKey u "day" := quotaKey_ne u (by decide)
  simp [postStore, RedisStore.incrExpire, h1, h2, usedOf]

theorem postStore_data_hour (cfg : UserQuotaConfig) (st : RedisStore) (u : String) :
    (postStore cfg st u).data (quotaKey u "hour") =
      some { count := usedOf st u "hour" + 1, ttl := 3600 } := by
  have h1 : quotaKey u "hour" ≠ quotaKey u "minute" := quotaKey_ne u (by decide)
  have h2 : quotaKey u "hour" ≠ quotaKey u "day" := quotaKey_ne u (by decide)
  simp [postStore, RedisStore.incrExpire, h1, h2, Ne.symm h1, Ne.symm h2, usedOf]

theorem postStore_data_day (cfg : UserQuotaConfig) (st : RedisStore) (u : String) :
    (postStore cfg st u).data (quotaKey u "day") =
      some { count := usedOf st u "day" + 1, ttl := 86400 } := by
  have h1 : quotaKey u "day" ≠ quotaKey u "minute" := quotaKey_ne u (by decide)
  have h2 : quotaKey u "day" ≠ quotaKey u "hour" := quotaKey_ne u (by decide)
  simp [postStore, RedisStore.incrExpire, h1, h2, Ne.symm h1, Ne.symm h2, usedOf]

theorem postStore_data_other (cfg : UserQuotaConfig) (st : RedisStore) (u k : String)
    (h1 : k ≠ quotaKey u "minute") (h2 : k ≠ quotaKey u "hour")
    (h3 : k ≠ quotaKey u "day") :
    (postStore cfg st u).data k = st.data k := by
  simp [postStore, RedisStore.incrExpire, h1, h2, h3]

theorem usedOf_postStore (cfg : UserQuotaConfig) (st : RedisStore) (u : String) :
    usedOf (postStore cfg st u) u "minute" = usedOf st u "minute" + 1 ∧
    usedOf (postStore cfg st u) u "hour" = usedOf st u "hour" + 1 ∧
    usedOf (postStore cfg st u) u "day" = usedOf st u "day" + 1 := by
  refine ⟨?_, ?_, ?_⟩ <;>
    simp only [usedOf, postStore_data_minute, postStore_data_hour, postStore_data_day]

theorem readTimeframe_disconnected (st : RedisStore) (hc : st.connected = false)
    (user tf : String) (limit : Nat) (nominal : Int) :
    readTimeframe st user tf limit nominal = Except.error () := by
  unfold readTimeframe RedisStore.get
  rw [hc]
  rfl

theorem readTimeframes_disconnected (cfg : UserQuotaConfig) (st : RedisStore)
    (user : String) (hc : st.connected = false) :
    readTimeframes st user cfg.limits = Except.error () := by
  simp only [UserQuotaConfig.limits, readTimeframes,
    readTimeframe_disconnected st hc]
  rfl

/-- One allowed step of `runQuota` from any store whose three counters for
the user all read `m`, with `m` strictly below every limit. -/
theorem runQuota_uniform (cfg : UserQuotaConfig) (user : String)
    (he : cfg.enabled = true) (hmh : cfg.per_minute ≤ cfg.per_hour)
    (hmd : cfg.per_minute ≤ cfg.per_day) :
    ∀ n m (st : RedisStore), st.present = true → st.connected = true →
      usedOf st user "minute" = m → usedOf st user "hour" = m →
      usedOf st user "day" = m → m + n ≤ cfg.per_minute →
      ∃ st2, runQuota cfg user n st = Except.ok st2 ∧ st2.present = true ∧
        st2.connected = true ∧ usedOf st2 user "minute" = m + n ∧
        usedOf st2 user "hour" = m + n ∧ usedOf st2 user "day" = m + n := by
  intro n
  induction n with
  | zero =>
    intro m st hp hc hm hh hd _
    exact ⟨st, rfl, hp, hc, by omega, by omega, by omega⟩
  | succ k ih =>
    intro m st hp hc hm hh hd hle
    have hflag : ((decide (cfg.per_day ≤ usedOf st user "day") ||
        decide (cfg.per_hour ≤ usedOf st user "hour")) ||
        decide (cfg.per_minute ≤ usedOf st user "minute")) = false := by
      simp only [Bool.or_eq_false_iff, decide_eq_false_iff_not, not_le]
      omega
    obtain ⟨st2, hrun, h1, h2, h3, h4, h5⟩ := ih (m + 1) (postStore cfg st user)
      (by rw [postStore_present]; exact hp)
      (by rw [postStore_connected]; exact hc)
      (by rw [(usedOf_postStore cfg st user).1, hm])
      (by rw [(usedOf_postStore cfg st user).2.1, hh])
      (by rw [(usedOf_postStore cfg st user).2.2, hd])
      (by omega)
    refine ⟨st2, ?_, h1, h2, by omega, by omega, by omega⟩
    rw [runQuota, check_and_increment_normal cfg st user he hp hc, hflag]
    simpa using hrun

/-! ## Claim theorems: quota guard -/

/-- C8: when the quota guard is disabled by configuration,
`check_and_increment` returns `allowed=true` with a zero-usage snapshot
for every caller and every store state, and leaves the store untouched
(it returns before any store operation). -/
theorem C8_disabled_always_allows (cfg : UserQuotaConfig) (st : RedisStore)
    (user : String) (hd : cfg.enabled = false) :
    check_and_increment cfg st user = Except.ok (true, zeroUsage cfg, st) := by
  unfold check_and_increment
  rw [hd]
  rfl

/-- C8 witness: a disabled configuration over a store already holding a
large minute count for the caller. -/
theorem C8_disabled_always_allows_witness :
    check_and_increment { enabled := false, per_minute := 4, per_hour := 100, per_day := 500 }
        { present := true, connected := true,
          data := fun k => if k = quotaKey "alice" "minute" then
            some { count := 999, ttl := 12 } else none } "alice" =
      Except.ok (true,
        zeroUsage { enabled := false, per_minute := 4, per_hour := 100, per_day := 500 },
        { present := true, connected := true,
          data := fun k => if k = quotaKey "alice" "minute" then
            some { count := 999, ttl := 12 } else none }) :=
  C8_disabled_always_allows _ _ _ rfl

/-- C4 counterexample: with the guard enabled and a configured store
client whose operations raise a connectivity error, `check_and_increment`
evaluates to `Except.error ()` — the exception propagates — rather than
to the `allowed=true` zero-usage result the claim requires. -/
theorem C4_store_error_cex :
    check_and_increment { enabled := true, per_minute := 4, per_hour := 100, per_day := 500 }
        { present := true, connected := false, data := fun _ => none } "alice" =
      Except.error () ∧
    (Except.error () : Except Unit (Bool × QuotaUsage × RedisStore)) ≠
      Except.ok (true,
        zeroUsage { enabled := true, per_minute := 4, per_hour := 100, per_day := 500 },
        { present := true, connected := false, data := fun _ => none }) :=
  ⟨rfl, fun h => Except.noConfusion h⟩

/-- C4 (amended): the fail-open path covers only the case where no store
client is configured (`self.redis` is `None`); when a client is present
but a store operation fails with a connectivity error, the exception
propagates out of `check_and_increment` (the source wraps no Redis call
in a handler). -/
theorem C4_fail_open_only_client_absent (cfg : UserQuotaConfig) (st : RedisStore)
    (user : String) :
    (cfg.enabled = true → st.present = false →
      check_and_increment cfg st user = Except.ok (true, zeroUsage cfg, st)) ∧
    (cfg.enabled = true → st.present = true → st.connected = false →
      check_and_increment cfg st user = Except.error ()) := by
  constructor
  · intro he hp
    unfold check_and_increment
    rw [he, hp]
    rfl
  · intro he hp hc
    unfold check_and_increment
    rw [he, hp, readTimeframes_disconnected cfg st user hc]
    rfl

/-- C4 amended-claim witness: both branches at concrete stores. -/
theorem C4_fail_open_only_client_absent_witness :
    check_and_increment { enabled := true, per_minute := 4, per_hour := 100, per_day := 500 }
        { present := false, connected := true, data := fun _ => none } "alice" =
      Except.ok (true,
        zeroUsage { enabled := true, per_minute := 4, per_hour := 100, per_day := 500 },
        { present := false, connected := true, data := fun _ => none }) ∧
    check_and_increment { enabled := true, per_minute := 4, per_hour := 100, per_day := 500 }
        { present := true, connected := false, data := fun _ => none } "bob" =
      Except.error () :=
  ⟨(C4_fail_open_only_client_absent _ _ _).1 rfl rfl,
   (C4_fail_open_only_client_absent _ _ _).2 rfl rfl rfl⟩

/-- C5: with the guard enabled, the store reachable, and every timeframe
strictly below its limit, `check_and_increment` allows the call, reports
each timeframe's pre-call count plus one, and the single pipeline batch
increments all three counters by one with their TTLs reset to the nominal
windows (60 / 3600 / 86400 seconds), touching no other key. -/
theorem C5_allowed_increments_all (cfg : UserQuotaConfig) (st : RedisStore)
    (user : String) (he : cfg.enabled = true) (hp : st.present = true)
    (hc : st.connected = true)
    (hm : usedOf st user "minute" < cfg.per_minute)
    (hh : usedOf st user "hour" < cfg.per_hour)
    (hd : usedOf st user "day" < cfg.per_day) :
    check_and_increment cfg st user =
      Except.ok (true, bumpUsage (readUsage cfg st user), postStore cfg st user) ∧
    (bumpUsage (readUsage cfg st user)).minute.used = usedOf st user "minute" + 1 ∧
    (bumpUsage (readUsage cfg st user)).hour.used = usedOf st user "hour" + 1 ∧
    (bumpUsage (readUsage cfg st user)).day.used = usedOf st user "day" + 1 ∧
    (postStore cfg st user).data (quotaKey user "minute") =
      some { count := usedOf st user "minute" + 1, ttl := 60 } ∧
    (postStore cfg st user).data (quotaKey user "hour") =
      some { count := usedOf st user "hour" + 1, ttl := 3600 } ∧
    (postStore cfg st user).data (quotaKey user "day") =
      some { count := usedOf st user "day" + 1, ttl := 86400 } ∧
    ∀ k, k ≠ quotaKey user "minute" → k ≠ quotaKey user "hour" →
      k ≠ quotaKey user "day" → (postStore cfg st user).data k = st.data k := by
  have hflag : ((decide (cfg.per_day ≤ usedOf st user "day") ||
      decide (cfg.per_hour ≤ usedOf st user "hour")) ||
      decide (cfg.per_minute ≤ usedOf st user "minute")) = false := by
    simp only [Bool.or_eq_false_iff, decide_eq_false_iff_not, not_le]
    omega
  refine ⟨?_, rfl, rfl, rfl, postStore_data_minute cfg st user,
    postStore_data_hour cfg st user, postStore_data_day cfg st user,
    fun k h1 h2 h3 => postStore_data_other cfg st user k h1 h2 h3⟩
  rw [check_and_increment_normal cfg st user he hp hc, hflag]
  rfl

/-- C5 witness: a caller with one prior call in each window. -/
theorem C5_allowed_increments_all_witness :
    check_and_increment { enabled := true, per_minute := 4, per_hour := 100, per_day := 500 }
        { present := true, connected := true,
          data := fun k => if k = quotaKey "alice" "minute" then some { count := 1, ttl := 30 }
            else if k = quotaKey "alice" "hour" then some { count := 1, ttl := 1000 }
            else if k = quotaKey "alice" "day" then some { count := 1, ttl := 40000 }
            else none } "alice" =
      Except.ok (true,
        bumpUsage (readUsage { enabled := true, per_minute := 4, per_hour := 100, per_day := 500 }
          { present := true, connected := true,
            data := fun k => if k = quotaKey "alice" "minute" then some { count := 1, ttl := 30 }
              else if k = quotaKey "alice" "hour" then some { count := 1, ttl := 1000 }
              else if k = quotaKey "alice" "day" then some { count := 1, ttl := 40000 }
              else none } "alice"),
        postStore { enabled := true, per_minute := 4, per_hour := 100, per_day := 500 }
          { present := true, connected := true,
            data := fun k => if k = quotaKey "alice" "minute" then some { count := 1, ttl := 30 }
              else if k = quotaKey "alice" "hour" then some { count := 1, ttl := 1000 }
              else if k = quotaKey "alice" "day" then some { count := 1, ttl := 40000 }
              else none } "alice") :=
  (C5_allowed_increments_all _ _ _ rfl rfl rfl (by decide) (by decide) (by decide)).1

/-- C3: (a) with the guard enabled and the store reachable, if any
timeframe's current count has reached its limit, `check_and_increment`
rejects, returns the snapshot read before incrementing (`readUsage`), and
returns the store unchanged — no counter is incremented; (b) starting
from a store with no counters for the caller, after exactly `per_minute`
accepted calls the next call in the window is rejected with
`used = per_minute` in the minute timeframe. -/
theorem C3_rejection_no_increment (cfg : UserQuotaConfig) (st : RedisStore)
    (user : String) :
    (cfg.enabled = true → st.present = true → st.connected = true →
      (cfg.per_minute ≤ usedOf st user "minute" ∨ cfg.per_hour ≤ usedOf st user "hour" ∨
        cfg.per_day ≤ usedOf st user "day") →
      check_and_increment cfg st user = Except.ok (false, readUsage cfg st user, st)) ∧
    (cfg.enabled = true → st.present = true → st.connected = true →
      st.data (quotaKey user "minute") = none → st.data (quotaKey user "hour") = none →
      st.data (quotaKey user "day") = none →
      cfg.per_minute ≤ cfg.per_hour → cfg.per_minute ≤ cfg.per_day →
      ∃ st2, runQuota cfg user cfg.per_minute st = Except.ok st2 ∧
        check_and_increment cfg st2 user = Except.ok (false, readUsage cfg st2 user, st2) ∧
        (readUsage cfg st2 user).minute.used = cfg.per_minute) := by
  constructor
  · intro he hp hc hex
    have hflag : ((decide (cfg.per_day ≤ usedOf st user "day") ||
        decide (cfg.per_hour ≤ usedOf st user "hour")) ||
        decide (cfg.per_minute ≤ usedOf st user "minute")) = true := by
      rcases hex with h | h | h <;> simp [h]
    rw [check_and_increment_normal cfg st user he hp hc, hflag]
    rfl
  · intro he hp hc hm hh hd hmh hmd
    obtain ⟨st2, hrun, h1, h2, h3, h4, h5⟩ :=
      runQuota_uniform cfg user he hmh hmd cfg.per_minute 0 st hp hc
        (by simp [usedOf, hm]) (by simp [usedOf, hh]) (by simp [usedOf, hd]) (by omega)
    refine ⟨st2, hrun, ?_, ?_⟩
    · have hflag : ((decide (cfg.per_day ≤ usedOf st2 user "day") ||
          decide (cfg.per_hour ≤ usedOf st2 user "hour")) ||
          decide (cfg.per_minute ≤ usedOf st2 user "minute")) = true := by
        simp only [h3, Nat.zero_add]
        simp
      rw [check_and_increment_normal cfg st2 user he h1 h2, hflag]
      rfl
    · simp [readUsage, h3]

/-- C3 witness: limits 4/100/500 and a fresh caller — four accepted calls
then a rejection at `used = 4`. -/
theorem C3_rejection_no_increment_witness :
    (∃ st2, runQuota { enabled := true, per_minute := 4, per_hour := 100, per_day := 500 }
        "alice" 4 { present := true, connected := true, data := fun _ => none } =
          Except.ok st2 ∧
      check_and_increment { enabled := true, per_minute := 4, per_hour := 100, per_day := 500 }
          st2 "alice" =
        Except.ok (false,
          readUsage { enabled := true, per_minute := 4, per_hour := 100, per_day := 500 }
            st2 "alice", st2) ∧
      (readUsage { enabled := true, per_minute := 4, per_hour := 100, per_day := 500 }
          st2 "alice").minute.used = 4) :=
  (C3_rejection_no_increment _ _ _).2 rfl rfl rfl rfl rfl rfl (by decide) (by decide)

/-- C9: `get_usage` never changes the store (whenever it returns, the
returned store is the input store, and it invokes no increment or expiry
operation); on the normal path it returns exactly the read snapshot, in
which an absent minute key is reported as `used = 0` with
`resets_in = 60`. -/
theorem C9_get_usage_frame (cfg : UserQuotaConfig) (st : RedisStore) (user : String) :
    (∀ u st2, get_usage cfg st user = Except.ok (u, st2) → st2 = st) ∧
    (cfg.enabled = true → st.present = true → st.connected = true →
      get_usage cfg st user = Except.ok (readUsage cfg st user, st)) ∧
    ((st.data (quotaKey user "minute") = none →
      (readUsage cfg st user).minute.used = 0 ∧
      (readUsage cfg st user).minute.resets_in = 60) ∧
     (st.data (quotaKey user "hour") = none →
      (readUsage cfg st user).hour.used = 0 ∧
      (readUsage cfg st user).hour.resets_in = 3600) ∧
     (st.data (quotaKey user "day") = none →
      (readUsage cfg st user).day.used = 0 ∧
      (readUsage cfg st user).day.resets_in = 86400)) := by
  refine ⟨?_, ?_, ?_, ?_, ?_⟩
  · intro u st2 h
    unfold get_usage at h
    by_cases hb : (!cfg.enabled || !st.present) = true
    · rw [if_pos hb] at h
      cases h
      rfl
    · rw [if_neg hb] at h
      cases hr : readTimeframes st user cfg.limits with
      | error e =>
        rw [hr] at h
        exact Except.noConfusion h
      | ok pr =>
        obtain ⟨ud, ex⟩ := pr
        rw [hr] at h
        cases h
        rfl
  · intro he hp hc
    unfold get_usage
    rw [he, hp, readTimeframes_limits cfg st user hc]
    rfl
  · intro h
    simp [readUsage, usedOf, resetsOf, h]
  · intro h
    simp [readUsage, usedOf, resetsOf, h]
  · intro h
    simp [readUsage, usedOf, resetsOf, h]

/-- C9 witness: a store with an hour counter but no minute counter. -/
theorem C9_get_usage_frame_witness :
    get_usage { enabled := true, per_minute := 4, per_hour := 100, per_day := 500 }
        { present := true, connected := true,
          data := fun k => if k = quotaKey "alice" "hour" then
            some { count := 3, ttl := 500 } else none } "alice" =
      Except.ok (readUsage { enabled := true, per_minute := 4, per_hour := 100, per_day := 500 }
        { present := true, connected := true,
          data := fun k => if k = quotaKey "alice" "hour" then
            some { count := 3, ttl := 500 } else none } "alice",
        { present := true, connected := true,
          data := fun k => if k = quotaKey "alice" "hour" then
            some { count := 3, ttl := 500 } else none }) :=
  (C9_get_usage_frame _ _ _).2.1 rfl rfl rfl

/-! ## Rate-limiter lemmas: window trimming -/

theorem trimOld_suffix (now : Int) (ts : List Int) : trimOld now ts <:+ ts :=
  List.dropWhile_suffix _

theorem trimOld_sublist (now : Int) (ts : List Int) : (trimOld now ts).Sublist ts :=
  (trimOld_suffix now ts).sublist

theorem trimOld_sorted {now : Int} {ts : List Int} (hs : ts.Sorted (· ≤ ·)) :
    (trimOld now ts).Sorted (· ≤ ·) :=
  List.Pairwise.sublist (trimOld_sublist now ts) hs

theorem trimOld_mem_le {now : Int} {ts : List Int} {T : Int}
    (hts : ∀ t ∈ ts, t ≤ T) : ∀ t ∈ trimOld now ts, t ≤ T :=
  fun t ht => hts t ((trimOld_sublist now ts).mem ht)

theorem trimOld_idem (now : Int) (ts : List Int) :
    trimOld now (trimOld now ts) = trimOld now ts := by
  induction ts with
  | nil => rfl
  | cons b l ih =>
    by_cases hb : (decide (now - b > 60)) = true
    · simp only [trimOld, List.dropWhile_cons, hb, if_true] at ih ⊢
      exact ih
    · simp [trimOld, List.dropWhile_cons, hb]

theorem trimOld_head_le {now t0 : Int} {ts rest : List Int}
    (h : trimOld now ts = t0 :: rest) : now - t0 ≤ 60 := by
  induction ts with
  | nil => exact absurd h (by simp [trimOld])
  | cons b l ih =>
    by_cases hb : (decide (now - b > 60)) = true
    · rw [trimOld, List.dropWhile_cons, if_pos hb] at h
      exact ih h
    · rw [trimOld, List.dropWhile_cons, if_neg hb] at h
      cases h
      simpa using hb

theorem trimOld_eq_filter {now : Int} {ts : List Int} (hs : ts.Sorted (· ≤ ·)) :
    trimOld now ts = ts.filter (fun t => decide (now - t ≤ 60)) := by
  induction ts with
  | nil => rfl
  | cons b l ih =>
    rw [List.sorted_cons] at hs
    obtain ⟨hble, hsl⟩ := hs
    by_cases hb : (decide (now - b > 60)) = true
    · have hb2 : (decide (now - b ≤ 60)) = false := by
        simp only [decide_eq_true_eq] at hb
        simp only [decide_eq_false_iff_not]
        omega
      simp only [trimOld, List.dropWhile_cons, hb, if_true, List.filter_cons, hb2,
        Bool.false_eq_true, if_false]
      exact ih hsl
    · have hb3 : (decide (now - b ≤ 60)) = true := by
        simp only [decide_eq_true_eq, not_lt] at hb ⊢
        omega
      have hfl : List.filter (fun t => decide (now - t ≤ 60)) l = l := by
        rw [List.filter_eq_self]
        intro a ha
        have hba := hble a ha
        simp only [decide_eq_true_eq, not_lt, gt_iff_lt, not_lt] at hb ⊢
        omega
      have hb4 : (decide (now - b > 60)) = false := by simpa using hb
      simp only [trimOld, List.dropWhile_cons, hb4, Bool.false_eq_true, if_false,
        List.filter_cons, hb3, if_true, hfl]

theorem trimOld_length_recent {now : Int} {ts : List Int} (hs : ts.Sorted (· ≤ ·)) :
    (trimOld now ts).length = recentCount now ts := by
  rw [trimOld_eq_filter hs, recentCount, List.countP_eq_length_filter]

theorem sorted_append_one {ts : List Int} {x : Int} (hs : ts.Sorted (· ≤ ·))
    (hx : ∀ t ∈ ts, t ≤ x) : (ts ++ [x]).Sorted (· ≤ ·) := by
  refine List.pairwise_append.mpr ⟨hs, List.pairwise_singleton _ _, ?_⟩
  intro a ha b hb
  rw [List.mem_singleton] at hb
  subst hb
  exact hx a ha

theorem recentCount_le_length (now : Int) (ts : List Int) :
    recentCount now ts ≤ ts.length :=
  List.countP_le_length _

theorem recentCount_append (now : Int) (l1 l2 : List Int) :
    recentCount now (l1 ++ l2) = recentCount now l1 + recentCount now l2 :=
  List.countP_append _ _ _

theorem recentCount_sublist {l1 l2 : List Int} (now : Int) (h : l1.Sublist l2) :
    recentCount now l1 ≤ recentCount now l2 :=
  List.Sublist.countP_le _ h

/-! ## Rate-limiter lemmas: the round-robin scan -/

theorem scanKeys_zero (cfg : RateLimiterConfig) (now : Int) (idx : Nat)
    (w : String → List Int) : scanKeys cfg now 0 idx w = (none, idx, w) := rfl

theorem scanKeys_succ (cfg : RateLimiterConfig) (now : Int) (m idx : Nat)
    (w : String → List Int) :
    scanKeys cfg now (m + 1) idx w =
      if (trimOld now (w (cfg.api_keys.getD idx ""))).length < cfg.max_rpm_per_key then
        (some (cfg.api_keys.getD idx ""), (idx + 1) % cfg.api_keys.length,
          fun k => if k = cfg.api_keys.getD idx "" then
            trimOld now (w (cfg.api_keys.getD idx "")) ++ [now] else w k)
      else scanKeys cfg now m ((idx + 1) % cfg.api_keys.length)
        (fun k => if k = cfg.api_keys.getD idx "" then
          trimOld now (w (cfg.api_keys.getD idx "")) else w k) := rfl

theorem scanKeys_idx_lt (cfg : RateLimiterConfig) (now : Int) :
    ∀ (n idx : Nat) (w : String → List Int), idx < cfg.api_keys.length →
      (scanKeys cfg now n idx w).2.1 < cfg.api_keys.length := by
  intro n
  induction n with
  | zero => intro idx w h; exact h
  | succ m ih =>
    intro idx w h
    rw [scanKeys_succ]
    by_cases hcap : (trimOld now (w (cfg.api_keys.getD idx ""))).length < cfg.max_rpm_per_key
    · rw [if_pos hcap]
      exact Nat.mod_lt _ (by omega)
    · rw [if_neg hcap]
      exact ih _ _ (Nat.mod_lt _ (by omega))

theorem scanKeys_none (cfg : RateLimiterConfig) (now : Int) :
    ∀ (n idx : Nat) (w : String → List Int) (idx2 : Nat) (w2 : String → List Int),
      scanKeys cfg now n idx w = (none, idx2, w2) →
      ∀ k, w2 k = w k ∨ w2 k = trimOld now (w k) := by
  intro n
  induction n with
  | zero =>
    intro idx w idx2 w2 h k
    rw [scanKeys_zero] at h
    simp only [Prod.mk.injEq] at h
    rw [← h.2.2]
    exact Or.inl rfl
  | succ m ih =>
    intro idx w idx2 w2 h k
    rw [scanKeys_succ] at h
    by_cases hcap : (trimOld now (w (cfg.api_keys.getD idx ""))).length < cfg.max_rpm_per_key
    · rw [if_pos hcap] at h
      simp at h
    · rw [if_neg hcap] at h
      have hmid := ih _ _ _ _ h k
      by_cases hk : k = cfg.api_keys.getD idx ""
      · simp only [hk, eq_self_iff_true, if_true, trimOld_idem] at hmid
        rw [hk]
        rcases hmid with h1 | h1
        · exact Or.inr h1
        · exact Or.inr h1
      · simp only [if_neg hk] at hmid
        exact hmid

theorem scanKeys_some (cfg : RateLimiterConfig) (now : Int) :
    ∀ (n idx : Nat) (w : String → List Int) (key : String) (idx2 : Nat)
      (w2 : String → List Int),
      scanKeys cfg now n idx w = (some key, idx2, w2) →
      w2 key = trimOld now (w key) ++ [now] ∧
      (trimOld now (w key)).length < cfg.max_rpm_per_key ∧
      ∀ k, k ≠ key → (w2 k = w k ∨ w2 k = trimOld now (w k)) := by
  intro n
  induction n with
  | zero =>
    intro idx w key idx2 w2 h
    rw [scanKeys_zero] at h
    simp at h
  | succ m ih =>
    intro idx w key idx2 w2 h
    rw [scanKeys_succ] at h
    by_cases hcap : (trimOld now (w (cfg.api_keys.getD idx ""))).length < cfg.max_rpm_per_key
    · rw [if_pos hcap] at h
      simp only [Prod.mk.injEq, Option.some.injEq] at h
      obtain ⟨hk0, _hidx, hw⟩ := h
      subst hk0
      rw [← hw]
      refine ⟨by simp, hcap, ?_⟩
      intro k hkk
      refine Or.inl ?_
      show (if k = cfg.api_keys.getD idx "" then
        trimOld now (w (cfg.api_keys.getD idx "")) ++ [now] else w k) = w k
      rw [if_neg hkk]
    · rw [if_neg hcap] at h
      obtain ⟨ha, hb, hc⟩ := ih _ _ _ _ _ h
      by_cases hk : key = cfg.api_keys.getD idx ""
      · simp only [hk, eq_self_iff_true, if_true, trimOld_idem] at ha hb
        refine ⟨by rw [hk]; exact ha, by rw [hk]; exact hb, ?_⟩
        intro k hkk
        have hck := hc k hkk
        by_cases hkk0 : k = cfg.api_keys.getD idx ""
        · rw [← hk] at hkk0
          exact absurd hkk0 hkk
        · simp only [if_neg hkk0] at hck
          exact hck
      · simp only [if_neg hk] at ha hb
        refine ⟨ha, hb, ?_⟩
        intro k hkk
        have hck := hc k hkk
        by_cases hkk0 : k = cfg.api_keys.getD idx ""
        · simp only [hkk0, eq_self_iff_true, if_true, trimOld_idem] at hck
          rw [hkk0]
          rcases hck with h1 | h1
          · exact Or.inr h1
          · exact Or.inr h1
        · simp only [if_neg hkk0] at hck
          exact hck

theorem scanKeys_none_covered (cfg : RateLimiterConfig) (now : Int) :
    ∀ (n idx : Nat) (w : String → List Int) (idx2 : Nat) (w2 : String → List Int),
      idx < cfg.api_keys.length →
      scanKeys cfg now n idx w = (none, idx2, w2) →
      ∀ j, j < n →
        w2 (cfg.api_keys.getD ((idx + j) % cfg.api_keys.length) "") =
          trimOld now (w (cfg.api_keys.getD ((idx + j) % cfg.api_keys.length) "")) := by
  intro n
  induction n with
  | zero =>
    intro idx w idx2 w2 _ _ j hj
    omega
  | succ m ih =>
    intro idx w idx2 w2 hidx h j hj
    rw [scanKeys_succ] at h
    by_cases hcap : (trimOld now (w (cfg.api_keys.getD idx ""))).length < cfg.max_rpm_per_key
    · rw [if_pos hcap] at h
      simp at h
    · rw [if_neg hcap] at h
      have hK : 0 < cfg.api_keys.length := by omega
      cases j with
      | zero =>
        have hmod : (idx + 0) % cfg.api_keys.length = idx := by
          rw [Nat.add_zero]
          exact Nat.mod_eq_of_lt hidx
        rw [hmod]
        have hsh := scanKeys_none cfg now m _ _ _ _ h (cfg.api_keys.getD idx "")
        simp only [eq_self_iff_true, if_true, trimOld_idem] at hsh
        rcases hsh with h1 | h1
        · exact h1
        · exact h1
      | succ i =>
        have hidx2 : (idx + 1) % cfg.api_keys.length < cfg.api_keys.length :=
          Nat.mod_lt _ hK
        have hcov := ih ((idx + 1) % cfg.api_keys.length) _ idx2 w2 hidx2 h i (by omega)
        have harith : ((idx + 1) % cfg.api_keys.length + i) % cfg.api_keys.length =
            (idx + (i + 1)) % cfg.api_keys.length := by
          rw [Nat.mod_add_mod]
          congr 1
          omega
        rw [harith] at hcov
        by_cases hkk0 : cfg.api_keys.getD ((idx + (i + 1)) % cfg.api_keys.length) "" =
            cfg.api_keys.getD idx ""
        · simp only [hkk0, eq_self_iff_true, if_true, trimOld_idem] at hcov
          rw [hkk0]
          exact hcov
        · simp only [if_neg hkk0] at hcov
          exact hcov

theorem scanKeys_none_all (cfg : RateLimiterConfig) (now : Int) (idx : Nat)
    (w : String → List Int) (idx2 : Nat) (w2 : String → List Int)
    (hidx : idx < cfg.api_keys.length)
    (h : scanKeys cfg now cfg.api_keys.length idx w = (none, idx2, w2)) :
    ∀ k ∈ cfg.api_keys, w2 k = trimOld now (w k) := by
  intro k hk
  obtain ⟨m, hm, hget⟩ := List.mem_iff_getElem.mp hk
  have hK : 0 < cfg.api_keys.length := by omega
  have hj : (m + cfg.api_keys.length - idx) % cfg.api_keys.length <
      cfg.api_keys.length := Nat.mod_lt _ hK
  have harith : (idx + (m + cfg.api_keys.length - idx) % cfg.api_keys.length) %
      cfg.api_keys.length = m := by
    by_cases hmi : idx ≤ m
    · have h1 : m + cfg.api_keys.length - idx = (m - idx) + cfg.api_keys.length := by omega
      rw [h1, Nat.add_mod_right, Nat.mod_eq_of_lt (by omega : m - idx < cfg.api_keys.length)]
      have h2 : idx + (m - idx) = m := by omega
      rw [h2]
      exact Nat.mod_eq_of_lt hm
    · have h1 : (m + cfg.api_keys.length - idx) % cfg.api_keys.length =
          m + cfg.api_keys.length - idx := Nat.mod_eq_of_lt (by omega)
      rw [h1]
      have h2 : idx + (m + cfg.api_keys.length - idx) = m + cfg.api_keys.length := by omega
      rw [h2, Nat.add_mod_right]
      exact Nat.mod_eq_of_lt hm
  have hcov := scanKeys_none_covered cfg now _ idx w idx2 w2 hidx h _ hj
  rw [harith, List.getD_eq_getElem _ _ hm, hget] at hcov
  exact hcov

theorem foldl_min_mem (w : String → List Int) :
    ∀ (ks : List String) (start : String),
      ks.foldl (fun best k2 =>
        if oldestLt ((w k2).head?) ((w best).head?) then k2 else best) start ∈
        start :: ks := by
  intro ks
  induction ks with
  | nil => intro start; exact List.mem_singleton_self _
  | cons a l ih =>
    intro start
    rw [List.foldl_cons]
    by_cases hc : oldestLt ((w a).head?) ((w start).head?) = true
    · rw [if_pos hc]
      rcases List.mem_cons.mp (ih a) with h3 | h3
      · exact List.mem_cons.mpr (Or.inr (List.mem_cons.mpr (Or.inl h3)))
      · exact List.mem_cons.mpr (Or.inr (List.mem_cons.mpr (Or.inr h3)))
    · rw [if_neg hc]
      rcases List.mem_cons.mp (ih start) with h3 | h3
      · exact List.mem_cons.mpr (Or.inl h3)
      · exact List.mem_cons.mpr (Or.inr (List.mem_cons.mpr (Or.inr h3)))

theorem oldestKey_mem {keys : List String} (w : String → List Int) (h : keys ≠ []) :
    oldestKey keys w ∈ keys := by
  cases keys with
  | nil => exact absurd rfl h
  | cons k ks => exact foldl_min_mem w ks k

/-! ## Rate-limiter lemmas: the windows invariant -/

theorem windowP_trim {R : Nat} {now : Int} {ts : List Int}
    (hs : ts.Sorted (· ≤ ·))
    (hb : ∀ T, (∀ t ∈ ts, t ≤ T) → (trimOld T ts).length ≤ R) :
    (trimOld now ts).Sorted (· ≤ ·) ∧
      ∀ T, (∀ t ∈ trimOld now ts, t ≤ T) → (trimOld T (trimOld now ts)).length ≤ R := by
  refine ⟨trimOld_sorted hs, ?_⟩
  intro T hT
  obtain hcase | ⟨t0, rest, hcase⟩ :
      trimOld now ts = [] ∨ ∃ t0 rest, trimOld now ts = t0 :: rest := by
    cases trimOld now ts with
    | nil => exact Or.inl rfl
    | cons a l => exact Or.inr ⟨a, l, rfl⟩
  · rw [hcase]
    simp [trimOld]
  · have ht0T : t0 ≤ T := hT t0 (by rw [hcase]; exact List.mem_cons_self _ _)
    have hallT : ∀ t ∈ ts, t ≤ T := by
      intro t ht
      have ht2 : t ∈ List.takeWhile (fun t => decide (now - t > 60)) ts ++
          List.dropWhile (fun t => decide (now - t > 60)) ts := by
        rw [List.takeWhile_append_dropWhile]
        exact ht
      rcases List.mem_append.mp ht2 with htw | hdw
      · have hsplit : List.Pairwise (· ≤ ·)
            (List.takeWhile (fun t => decide (now - t > 60)) ts ++
              List.dropWhile (fun t => decide (now - t > 60)) ts) := by
          rw [List.takeWhile_append_dropWhile]
          exact hs
        have hle := (List.pairwise_append.mp hsplit).2.2 t htw t0
          (by rw [show List.dropWhile (fun t => decide (now - t > 60)) ts =
            t0 :: rest from hcase]; exact List.mem_cons_self _ _)
        omega
      · exact hT t hdw
    have h1 : (trimOld T (trimOld now ts)).length = recentCount T (trimOld now ts) :=
      trimOld_length_recent (trimOld_sorted hs)
    have h2 : recentCount T (trimOld now ts) ≤ recentCount T ts :=
      recentCount_sublist T (trimOld_sublist now ts)
    have h3 : recentCount T ts = (trimOld T ts).length := (trimOld_length_recent hs).symm
    have h4 := hb T hallT
    omega

theorem windowP_grant {R : Nat} {now : Int} {ts : List Int}
    (hs : ts.Sorted (· ≤ ·)) (hts : ∀ t ∈ ts, t ≤ now)
    (hcap : (trimOld now ts).length < R) :
    (trimOld now ts ++ [now]).Sorted (· ≤ ·) ∧
      ∀ T, (∀ t ∈ trimOld now ts ++ [now], t ≤ T) →
        (trimOld T (trimOld now ts ++ [now])).length ≤ R := by
  have hsort : (trimOld now ts ++ [now]).Sorted (· ≤ ·) :=
    sorted_append_one (trimOld_sorted hs) (trimOld_mem_le hts)
  refine ⟨hsort, ?_⟩
  intro T _hT
  have h1 : (trimOld T (trimOld now ts ++ [now])).length =
      recentCount T (trimOld now ts ++ [now]) := trimOld_length_recent hsort
  have h2 : recentCount T (trimOld now ts) ≤ (trimOld now ts).length :=
    recentCount_le_length T _
  have h3 : recentCount T [now] ≤ 1 := recentCount_le_length T _
  have h4 := recentCount_append T (trimOld now ts) [now]
  omega

theorem windowP_fallback {R : Nat} {now eps : Int} {ts : List Int}
    (hR : 1 ≤ R) (heps : 0 < eps) (hs : ts.Sorted (· ≤ ·)) (hts : ∀ t ∈ ts, t ≤ now)
    (hb : ∀ T, (∀ t ∈ ts, t ≤ T) → (trimOld T ts).length ≤ R) :
    ∀ now2 : Int, now2 = (match (trimOld now ts).head? with
        | some t0 => now + max (60 - (now - t0)) 0 + eps
        | none => now + eps) →
      (trimOld now ts ++ [now2]).Sorted (· ≤ ·) ∧
      ∀ T, (∀ t ∈ trimOld now ts ++ [now2], t ≤ T) →
        (trimOld T (trimOld now ts ++ [now2])).length ≤ R := by
  intro now2 hnow2
  have hge : now ≤ now2 := by
    cases hh : (trimOld now ts).head? with
    | none =>
      rw [hh] at hnow2
      have h2 : now2 = now + eps := hnow2
      omega
    | some t0 =>
      rw [hh] at hnow2
      have h2 : now2 = now + max (60 - (now - t0)) 0 + eps := hnow2
      have := le_max_right (60 - (now - t0)) (0 : Int)
      omega
  have htr_le : ∀ t ∈ trimOld now ts, t ≤ now2 := fun t ht =>
    le_trans (trimOld_mem_le hts t ht) hge
  have hsort : (trimOld now ts ++ [now2]).Sorted (· ≤ ·) :=
    sorted_append_one (trimOld_sorted hs) htr_le
  refine ⟨hsort, ?_⟩
  intro T hT
  have hTnow2 : now2 ≤ T := hT now2 (by simp)
  obtain hc | ⟨t0, rest, hc⟩ :
      trimOld now ts = [] ∨ ∃ t0 rest, trimOld now ts = t0 :: rest := by
    cases trimOld now ts with
    | nil => exact Or.inl rfl
    | cons a l => exact Or.inr ⟨a, l, rfl⟩
  · rw [hc]
    simp only [List.nil_append]
    have hsub : (trimOld T [now2]).length ≤ ([now2] : List Int).length :=
      (trimOld_sublist T _).length_le
    simp only [List.length_singleton] at hsub
    omega
  · have ht0 : now - t0 ≤ 60 := trimOld_head_le hc
    have hhead : (trimOld now ts).head? = some t0 := by rw [hc]; rfl
    rw [hhead] at hnow2
    have hnow2eq : now2 = now + max (60 - (now - t0)) 0 + eps := hnow2
    have hmax := le_max_left (60 - (now - t0)) (0 : Int)
    have hnow2gt : t0 + 60 < now2 := by omega
    have h1 : (trimOld T (trimOld now ts ++ [now2])).length =
        recentCount T (trimOld now ts ++ [now2]) := trimOld_length_recent hsort
    have h2 := recentCount_append T (trimOld now ts) [now2]
    have h3 : recentCount T (trimOld now ts) ≤ rest.length := by
      rw [hc, recentCount, List.countP_cons_of_neg]
      · exact List.countP_le_length _
      · simp only [decide_eq_true_eq]
        omega
    have h4 : (trimOld now ts).length = rest.length + 1 := by
      rw [hc]
      simp
    have h5 : (trimOld now ts).length ≤ R := hb now hts
    have h6 : recentCount T [now2] ≤ 1 := recentCount_le_length T _
    omega

theorem fallbackGrant_state (cfg : RateLimiterConfig) (env : AcquireEnv) (idx2 : Nat)
    (w2 : String → List Int) (gate : Nat) :
    (fallbackGrant cfg env idx2 w2 gate).2 =
      { semaphore := gate, current_key_index := idx2,
        key_timestamps := fun k => if k = oldestKey cfg.api_keys w2 then
          w2 (oldestKey cfg.api_keys w2) ++
            [match (w2 (oldestKey cfg.api_keys w2)).head? with
             | some t0 => env.now + max (60 - (env.now - t0)) 0 + env.eps
             | none => env.now + env.eps]
          else w2 k } := rfl

theorem fallbackGrant_WindowInv (cfg : RateLimiterConfig) (env : AcquireEnv)
    (idx2 : Nat) (w2 : String → List Int) (gate : Nat) (s : LimiterState)
    (hR : 1 ≤ cfg.max_rpm_per_key) (heps : 0 < env.eps)
    (hidx2 : idx2 < cfg.api_keys.length)
    (hnow : ∀ k ∈ cfg.api_keys, ∀ t ∈ s.key_timestamps k, t ≤ env.now)
    (hwin : ∀ k ∈ cfg.api_keys, (s.key_timestamps k).Sorted (· ≤ ·) ∧
      ∀ T, (∀ t ∈ s.key_timestamps k, t ≤ T) →
        (trimOld T (s.key_timestamps k)).length ≤ cfg.max_rpm_per_key)
    (hall : ∀ k ∈ cfg.api_keys, w2 k = trimOld env.now (s.key_timestamps k)) :
    WindowInv cfg (fallbackGrant cfg env idx2 w2 gate).2 := by
  have hne : cfg.api_keys ≠ [] := by
    intro h
    rw [h] at hidx2
    simp at hidx2
  have hmem : oldestKey cfg.api_keys w2 ∈ cfg.api_keys := oldestKey_mem w2 hne
  rw [fallbackGrant_state]
  refine ⟨Or.inr hidx2, ?_⟩
  intro k hk
  dsimp only
  by_cases hk0 : k = oldestKey cfg.api_keys w2
  · rw [if_pos hk0]
    have hok := hall _ hmem
    rw [hok]
    obtain ⟨hsk, hbk⟩ := hwin _ hmem
    exact windowP_fallback hR heps hsk (hnow _ hmem) hbk _ rfl
  · rw [if_neg hk0]
    rcases (rfl : w2 k = w2 k) ▸ hall k hk with h1
    rw [h1]
    obtain ⟨hsk, hbk⟩ := hwin k hk
    exact windowP_trim hsk hbk

theorem acquire_WindowInv (cfg : RateLimiterConfig) (env : AcquireEnv) (s : LimiterState)
    (hR : 1 ≤ cfg.max_rpm_per_key) (heps : 0 < env.eps)
    (hnow : ∀ k ∈ cfg.api_keys, ∀ t ∈ s.key_timestamps k, t ≤ env.now)
    (hinv : WindowInv cfg s) : WindowInv cfg (acquire cfg env s).2 := by
  obtain ⟨hidx, hwin⟩ := hinv
  unfold acquire
  cases hen : cfg.enabled with
  | false =>
    simp only [hen, Bool.not_false, if_true]
    exact ⟨hidx, hwin⟩
  | true =>
    simp only [hen, Bool.not_true, Bool.false_eq_true, if_false]
    cases hkeys : cfg.api_keys.isEmpty with
    | true =>
      simp only [if_true]
      exact ⟨hidx, hwin⟩
    | false =>
      simp only [Bool.false_eq_true, if_false]
      cases hto : env.timedOut with
      | true =>
        simp only [if_true]
        exact ⟨hidx, hwin⟩
      | false =>
        simp only [Bool.false_eq_true, if_false]
        have hKpos : 0 < cfg.api_keys.length := by
          cases hks : cfg.api_keys with
          | nil =>
            rw [hks] at hkeys
            simp at hkeys
          | cons a l => simp
        have hidx2 : s.current_key_index < cfg.api_keys.length := by
          rcases hidx with h | h
          · omega
          · exact h
        rcases hscan : scanKeys cfg env.now cfg.api_keys.length s.current_key_index
          s.key_timestamps with ⟨o, idx2, w2⟩
        have hi := scanKeys_idx_lt cfg env.now cfg.api_keys.length s.current_key_index
          s.key_timestamps hidx2
        rw [hscan] at hi
        cases o with
        | some key =>
          dsimp only
          obtain ⟨ha, hb, hc⟩ := scanKeys_some cfg env.now _ _ _ _ _ _ hscan
          refine ⟨Or.inr hi, ?_⟩
          intro k hk
          show (w2 k).Sorted (· ≤ ·) ∧ ∀ T, (∀ t ∈ w2 k, t ≤ T) →
            (trimOld T (w2 k)).length ≤ cfg.max_rpm_per_key
          by_cases hkey : k = key
          · subst hkey
            rw [ha]
            obtain ⟨hsk, hbk⟩ := hwin k hk
            exact windowP_grant hsk (hnow k hk) hb
          · rcases hc k hkey with h1 | h1
            · rw [h1]
              exact hwin k hk
            · rw [h1]
              obtain ⟨hsk, hbk⟩ := hwin k hk
              exact windowP_trim hsk hbk
        | none =>
          dsimp only
          exact fallbackGrant_WindowInv cfg env idx2 w2 _ s hR heps hi hnow hwin
            (scanKeys_none_all cfg env.now _ _ _ _ hidx2 hscan)

/-! ## Claim theorems: rate limiter -/

theorem runAcquires_WindowInv (cfg : RateLimiterConfig) (hR : 1 ≤ cfg.max_rpm_per_key) :
    ∀ (envs : List AcquireEnv) (s : LimiterState),
      validTrace cfg s envs = true → WindowInv cfg s →
      WindowInv cfg (runAcquires cfg envs s) := by
  intro envs
  induction envs with
  | nil =>
    intro s _ hinv
    exact hinv
  | cons env rest ih =>
    intro s hv hinv
    rw [validTrace] at hv
    simp only [Bool.and_eq_true, decide_eq_true_eq, List.all_eq_true] at hv
    obtain ⟨⟨hall, heps⟩, hrest⟩ := hv
    rw [runAcquires]
    exact ih _ hrest (acquire_WindowInv cfg env s hR heps hall hinv)

/-- C1 (amended): provided `max_rpm_per_key ≥ 1` and the wall clock
strictly advances past each fallback sleep (every call's `eps` is
positive, and each call's entry time is no earlier than every recorded
timestamp), no credential's trimmed window ever holds more than
`max_rpm_per_key` timestamps: the windows invariant is preserved by any
sequence of `acquire` calls, so immediately after any grant the granted
credential's window, trimmed at any instant at or after its entries,
stays within the ceiling.  This covers both the round-robin scan path and
the all-keys-saturated fallback path.  (The unamended claim — for any
`R ≥ 0` and any timing — is refuted by `C1_rpm_window_bound_cex`.) -/
theorem C1_rpm_window_bound (cfg : RateLimiterConfig) (envs : List AcquireEnv)
    (s : LimiterState) (hR : 1 ≤ cfg.max_rpm_per_key)
    (hv : validTrace cfg s envs = true) (hinv : WindowInv cfg s) :
    WindowInv cfg (runAcquires cfg envs s) ∧
    ∀ k ∈ cfg.api_keys, ∀ T : Int,
      (∀ t ∈ (runAcquires cfg envs s).key_timestamps k, t ≤ T) →
      (trimOld T ((runAcquires cfg envs s).key_timestamps k)).length ≤
        cfg.max_rpm_per_key := by
  have h := runAcquires_WindowInv cfg hR envs s hv hinv
  exact ⟨h, fun k hk => (h.2 k hk).2⟩

/-- C1 witness: two credentials at 2 RPM each, five back-to-back calls
(the fifth goes through the saturated-fallback path). -/
theorem C1_rpm_window_bound_witness :
    validTrace cfgTwoKeys (initState cfgTwoKeys)
      [⟨0, false, 1⟩, ⟨0, false, 1⟩, ⟨0, false, 1⟩, ⟨0, false, 1⟩, ⟨0, false, 1⟩] = true ∧
    WindowInv cfgTwoKeys
      (runAcquires cfgTwoKeys
        [⟨0, false, 1⟩, ⟨0, false, 1⟩, ⟨0, false, 1⟩, ⟨0, false, 1⟩, ⟨0, false, 1⟩]
        (initState cfgTwoKeys)) :=
  ⟨by decide,
   (C1_rpm_window_bound cfgTwoKeys _ _ (by decide) (by decide)
     ⟨Or.inr (by decide),
      fun k _ => ⟨List.sorted_nil, fun T _ => by simp [initState, trimOld]⟩⟩).1⟩

/-- C1 counterexample: the claim as stated fails on the fallback path.
With `max_rpm_per_key = 0` a single `acquire` still grants and records a
timestamp (1 > 0 in the trailing window); with `max_rpm_per_key = 1` and
a sleep that elapses exactly the computed wait, the second `acquire`
grants via the fallback and leaves two timestamps (`[0, 60]`) inside the
trimmed 60-second window (the eviction predicate `now - t > 60` is
strict, so the 60-second-old entry is still counted). -/
theorem C1_rpm_window_bound_cex :
    ((acquire cfgZeroRpm ⟨0, false, 1⟩ (initState cfgZeroRpm)).1 = (true, some "k1") ∧
     (trimOld 1 ((acquire cfgZeroRpm ⟨0, false, 1⟩
        (initState cfgZeroRpm)).2.key_timestamps "k1")).length = 1 ∧
     cfgZeroRpm.max_rpm_per_key = 0) ∧
    ((acquire cfgOneRpm ⟨0, false, 0⟩
        (acquire cfgOneRpm ⟨0, false, 0⟩ (initState cfgOneRpm)).2).1 = (true, some "k1") ∧
     (trimOld 60 ((acquire cfgOneRpm ⟨0, false, 0⟩
        (acquire cfgOneRpm ⟨0, false, 0⟩
          (initState cfgOneRpm)).2).2.key_timestamps "k1")).length = 2 ∧
     cfgOneRpm.max_rpm_per_key = 1) := by
  refine ⟨⟨?_, ?_, ?_⟩, ?_, ?_, ?_⟩ <;> decide

/-- C2: `acquire` denies if and only if the limiter is enabled and either
the credential pool is empty or the gate wait timed out; every denial
carries no credential; and when disabled it returns the first configured
credential (or none) with the state untouched.  In particular a request
that clears the gate with a non-empty pool is always granted — the
saturated-RPM fallback waits and grants rather than rejecting. -/
theorem C2_acquire_denial_iff (cfg : RateLimiterConfig) (env : AcquireEnv)
    (s : LimiterState) :
    ((acquire cfg env s).1.1 = false ↔
      cfg.enabled = true ∧ (cfg.api_keys = [] ∨ env.timedOut = true)) ∧
    (cfg.enabled = false → acquire cfg env s = ((true, cfg.api_keys.head?), s)) ∧
    ((acquire cfg env s).1.1 = false → (acquire cfg env s).1.2 = none) := by
  unfold acquire
  cases hen : cfg.enabled with
  | false =>
    simp only [hen, Bool.not_false, if_true]
    simp
  | true =>
    simp only [hen, Bool.not_true, Bool.false_eq_true, if_false]
    cases hkeys : cfg.api_keys.isEmpty with
    | true =>
      simp only [if_true]
      simp only [List.isEmpty_iff] at hkeys
      simp [hkeys]
    | false =>
      simp only [Bool.false_eq_true, if_false]
      have hne : cfg.api_keys ≠ [] := by
        intro h
        rw [h] at hkeys
        simp at hkeys
      cases hto : env.timedOut with
      | true =>
        simp only [if_true]
        simp [hne]
      | false =>
        simp only [Bool.false_eq_true, if_false]
        rcases hscan : scanKeys cfg env.now cfg.api_keys.length s.current_key_index
          s.key_timestamps with ⟨o, idx2, w2⟩
        cases o with
        | some key =>
          dsimp only
          simp [hne]
        | none =>
          dsimp only [fallbackGrant]
          simp [hne]

/-- C2 witness: a timed-out call is denied with no credential; a disabled
limiter grants the first key untouched. -/
theorem C2_acquire_denial_iff_witness :
    (acquire cfgOneKey ⟨0, true, 1⟩ (initState cfgOneKey)).1.1 = false ∧
    acquire cfgOneKeyOff ⟨0, false, 1⟩ (initState cfgOneKeyOff) =
      ((true, some "alpha"), initState cfgOneKeyOff) :=
  ⟨(C2_acquire_denial_iff cfgOneKey ⟨0, true, 1⟩ (initState cfgOneKey)).1.mpr
      ⟨rfl, Or.inr rfl⟩,
   (C2_acquire_denial_iff cfgOneKeyOff ⟨0, false, 1⟩ (initState cfgOneKeyOff)).2.1 rfl⟩

/-- C10: while the limiter is disabled, any sequence of `acquire` and
`release` calls — including unbalanced releases — leaves the state
exactly as it was: the gate's slot count, the cursor, and every
per-credential window are unchanged. -/
theorem C10_disabled_frame (cfg : RateLimiterConfig) (ops : List LimiterOp)
    (s : LimiterState) (hd : cfg.enabled = false) : runOps cfg ops s = s := by
  induction ops generalizing s with
  | nil => rfl
  | cons op rest ih =>
    cases op with
    | acq env =>
      have hacq : (acquire cfg env s).2 = s := by
        unfold acquire
        rw [hd]
        rfl
      rw [runOps, hacq]
      exact ih s
    | rel =>
      have hrel : release cfg s = s := by
        unfold release
        rw [hd]
        rfl
      rw [runOps, hrel]
      exact ih s

/-- C10 witness: a disabled limiter with a populated window, an acquire,
and two unbalanced releases. -/
theorem C10_disabled_frame_witness :
    runOps cfgOneKeyOff
      [LimiterOp.acq ⟨5, false, 1⟩, LimiterOp.rel, LimiterOp.rel,
        LimiterOp.acq ⟨9, true, 0⟩]
      { semaphore := 3, current_key_index := 0,
        key_timestamps := fun k => if k = "alpha" then [2] else [] } =
      { semaphore := 3, current_key_index := 0,
        key_timestamps := fun k => if k = "alpha" then [2] else [] } :=
  C10_disabled_frame cfgOneKeyOff _ _ rfl

theorem acquireSeq_cons (cfg : RateLimiterConfig) (env : AcquireEnv)
    (rest : List AcquireEnv) (s : LimiterState) :
    acquireSeq cfg (env :: rest) s =
      ((acquire cfg env s).1 :: (acquireSeq cfg rest (acquire cfg env s).2).1,
       (acquireSeq cfg rest (acquire cfg env s).2).2) := rfl

theorem acquire_light_step (cfg : RateLimiterConfig) (env : AcquireEnv) (s : LimiterState)
    (hen : cfg.enabled = true) (hto : env.timedOut = false)
    (hidx : s.current_key_index < cfg.api_keys.length)
    (hcap : (trimOld env.now
        (s.key_timestamps (cfg.api_keys.getD s.current_key_index ""))).length <
      cfg.max_rpm_per_key) :
    acquire cfg env s = ((true, some (cfg.api_keys.getD s.current_key_index "")),
      { semaphore := s.semaphore - 1,
        current_key_index := (s.current_key_index + 1) % cfg.api_keys.length,
        key_timestamps := fun k => if k = cfg.api_keys.getD s.current_key_index "" then
          trimOld env.now (s.key_timestamps (cfg.api_keys.getD s.current_key_index "")) ++
            [env.now]
          else s.key_timestamps k }) := by
  have hKpos : 0 < cfg.api_keys.length := by omega
  have hkeys : cfg.api_keys.isEmpty = false := by
    cases h : cfg.api_keys with
    | nil =>
      rw [h] at hKpos
      simp at hKpos
    | cons a l => rfl
  unfold acquire
  simp only [hen, Bool.not_true, Bool.false_eq_true, if_false, hkeys, hto, if_true]
  obtain ⟨m, hm⟩ : ∃ m, cfg.api_keys.length = m + 1 := ⟨cfg.api_keys.length - 1, by omega⟩
  rw [hm, scanKeys_succ, if_pos hcap]
  rw [← hm]

/-- C7: with the limiter enabled and no credential's trimmed window at
the RPM ceiling at any call (and no gate timeout), successive `acquire`
calls grant credentials cycling through the pool in order with
wraparound, starting at the cursor position, and after the sequence the
cursor points `n` positions further (mod the pool size). -/
theorem C7_round_robin (cfg : RateLimiterConfig) :
    ∀ (envs : List AcquireEnv) (s : LimiterState),
      cfg.enabled = true → s.current_key_index < cfg.api_keys.length →
      lightLoad cfg s envs = true →
      (∀ j, j < envs.length → (acquireSeq cfg envs s).1[j]? =
        some (true, some (cfg.api_keys.getD
          ((s.current_key_index + j) % cfg.api_keys.length) ""))) ∧
      (acquireSeq cfg envs s).2.current_key_index =
        (s.current_key_index + envs.length) % cfg.api_keys.length := by
  intro envs
  induction envs with
  | nil =>
    intro s _ hidx _
    constructor
    · intro j hj
      simp at hj
    · show s.current_key_index = (s.current_key_index + 0) % cfg.api_keys.length
      rw [Nat.add_zero, Nat.mod_eq_of_lt hidx]
  | cons env rest ih =>
    intro s hen hidx hl
    rw [lightLoad] at hl
    simp only [Bool.and_eq_true, Bool.not_eq_true', List.all_eq_true,
      decide_eq_true_eq] at hl
    obtain ⟨⟨hto, hall⟩, hrest⟩ := hl
    have hKpos : 0 < cfg.api_keys.length := by omega
    have hmem : cfg.api_keys.getD s.current_key_index "" ∈ cfg.api_keys := by
      rw [List.getD_eq_getElem _ _ hidx]
      exact List.getElem_mem _
    have hstep := acquire_light_step cfg env s hen hto hidx (hall _ hmem)
    rw [hstep] at hrest
    obtain ⟨ih1, ih2⟩ := ih _ hen (Nat.mod_lt _ hKpos) hrest
    rw [acquireSeq_cons, hstep]
    constructor
    · intro j hj
      cases j with
      | zero =>
        simp only [List.getElem?_cons_zero, Nat.add_zero, Nat.mod_eq_of_lt hidx]
      | succ i =>
        rw [List.getElem?_cons_succ]
        have := ih1 i (by simpa using Nat.lt_of_succ_lt_succ hj)
        rw [this]
        have harith : ((s.current_key_index + 1) % cfg.api_keys.length + i) %
            cfg.api_keys.length = (s.current_key_index + (i + 1)) % cfg.api_keys.length := by
          rw [Nat.mod_add_mod]
          congr 1
          omega
        rw [harith]
    · rw [ih2]
      rw [Nat.mod_add_mod]
      congr 1
      simp [List.length_cons]
      omega

/-- C7 witness: two credentials, three rapid calls under light load:
grants alpha, beta, alpha and the cursor ends at position 1. -/
theorem C7_round_robin_witness :
    (acquireSeq cfgTwoKeys [⟨0, false, 1⟩, ⟨0, false, 1⟩, ⟨0, false, 1⟩]
      (initState cfgTwoKeys)).1[0]? = some (true, some "alpha") ∧
    (acquireSeq cfgTwoKeys [⟨0, false, 1⟩, ⟨0, false, 1⟩, ⟨0, false, 1⟩]
      (initState cfgTwoKeys)).1[1]? = some (true, some "beta") ∧
    (acquireSeq cfgTwoKeys [⟨0, false, 1⟩, ⟨0, false, 1⟩, ⟨0, false, 1⟩]
      (initState cfgTwoKeys)).1[2]? = some (true, some "alpha") ∧
    (acquireSeq cfgTwoKeys [⟨0, false, 1⟩, ⟨0, false, 1⟩, ⟨0, false, 1⟩]
      (initState cfgTwoKeys)).2.current_key_index = 1 :=
  ⟨(C7_round_robin cfgTwoKeys _ _ rfl (by decide) (by decide)).1 0 (by decide),
   (C7_round_robin cfgTwoKeys _ _ rfl (by decide) (by decide)).1 1 (by decide),
   (C7_round_robin cfgTwoKeys _ _ rfl (by decide) (by decide)).1 2 (by decide),
   (C7_round_robin cfgTwoKeys _ _ rfl (by decide) (by decide)).2⟩

/-- C6 counterexample: for a short credential the masked stats key
contains the full credential verbatim — the token "abc" is reported under
"abc...abc", which has "abc" as an infix (indeed as a prefix), so the
statistics surface reveals the complete credential value. -/
theorem C6_masking_cex :
    get_stats cfgShortKey 0 (fun _ => []) = [("abc...abc", 0, 25)] ∧
    "abc".data <:+: (maskKey "abc").data := by
  constructor
  · rfl
  · decide

/-- C6 (amended): every configured credential's statistics are reported
under its masked form `key[:8] ++ "..." ++ key[-4:]`; for credentials of
at least 9 characters containing no '.' character the full credential
value does not occur inside the masked key.  (For credentials of at most
8 characters the slice `key[:8]` is the whole token, so the "masked" name
reveals it — `C6_masking_cex`.) -/
theorem C6_masking (cfg : RateLimiterConfig) (now : Int) (w : String → List Int)
    (key : String) (hk : key ∈ cfg.api_keys) (hlen : 9 ≤ key.data.length)
    (hdot : ∀ c ∈ key.data, c ≠ '.') :
    (maskKey key, recentCount now (w key), cfg.max_rpm_per_key) ∈ get_stats cfg now w ∧
    ¬ key.data <:+: (maskKey key).data := by
  constructor
  · exact List.mem_map_of_mem _ hk
  · intro hinf
    obtain ⟨sl, tl, hst⟩ := hinf
    have hmask : (maskKey key).data =
        key.data.take 8 ++ ('.' :: '.' :: '.' :: []) ++
          key.data.drop (key.data.length - 4) := by
      simp only [maskKey, String.data_append]
    have hlenA : (key.data.take 8).length = 8 := by
      rw [List.length_take]
      exact min_eq_left (by omega)
    have hlenB : (key.data.drop (key.data.length - 4)).length = 4 := by
      rw [List.length_drop]
      omega
    have hlen15 : (maskKey key).data.length = 15 := by
      rw [hmask]
      simp only [List.length_append, hlenA, hlenB, List.length_cons, List.length_nil]
    have h8 : (maskKey key).data[8]? = some '.' := by
      rw [hmask]
      rw [List.getElem?_append, if_pos (by
        simp only [List.length_append, hlenA, List.length_cons, List.length_nil]
        omega)]
      rw [List.getElem?_append, if_neg (by rw [hlenA]; omega), hlenA]
      rfl
    have hsl : sl.length ≤ 6 := by
      have hc := congrArg List.length hst
      rw [hlen15] at hc
      simp only [List.length_append] at hc
      omega
    have h8b : (maskKey key).data[8]? = key.data[8 - sl.length]? := by
      rw [← hst]
      rw [List.getElem?_append, if_pos (by simp only [List.length_append]; omega)]
      rw [List.getElem?_append, if_neg (by omega)]
    have hdot8 : key.data[8 - sl.length]? = some '.' := by rw [← h8b, h8]
    obtain ⟨hbound, hget⟩ := List.getElem?_eq_some.mp hdot8
    exact hdot '.' (hget ▸ List.getElem_mem hbound) rfl

/-- C6 amended-claim witness: a 16-character dot-free credential. -/
theorem C6_masking_witness :
    (maskKey "sk12345678901234", recentCount 0 ((fun _ => ([] : List Int))
        "sk12345678901234"),
      cfgLongKey.max_rpm_per_key) ∈ get_stats cfgLongKey 0 (fun _ => []) ∧
    ¬ "sk12345678901234".data <:+: (maskKey "sk12345678901234").data :=
  C6_masking cfgLongKey 0 (fun _ => []) "sk12345678901234" (by decide) (by decide)
    (by decide)

end DBGenie
